import Mathlib
set_option linter.unusedVariables false

/-!
Verification development for the historical-variability analyzer
(src/historical_variability_analyzer.py).

Shallow embedding conventions:
* Python floats are modelled as exact rationals; Python round(x, 2)
  (round-half-to-even on the value) is modelled as exact
  round-half-to-even on the rational.
* Python lists and numpy arrays become List rationals; out-of-range
  indexing (an IndexError at runtime) is modelled with Except, the
  indexError payload recording the offending index.
* f-string number formatting is modelled digit by digit over char lists.
-/

/-!
The library arithmetic on ℚ is irreducible by design, so the embedding
uses its own kernel-computable rational operations, each proved equal to
the library operation below; theorems are stated and proved through the
library operations.
-/

/-- Addition of rationals, kernel-computable. -/
def ratAdd (a b : ℚ) : ℚ := Rat.divInt (a.num * b.den + b.num * a.den) (a.den * b.den)

/-- Subtraction of rationals, kernel-computable. -/
def ratSub (a b : ℚ) : ℚ := Rat.divInt (a.num * b.den - b.num * a.den) (a.den * b.den)

/-- Multiplication of rationals, kernel-computable. -/
def ratMul (a b : ℚ) : ℚ := Rat.divInt (a.num * b.num) (a.den * b.den)

/-- Division of rationals, kernel-computable. -/
def ratDiv (a b : ℚ) : ℚ := Rat.divInt (a.num * b.den) (a.den * b.num)

/-- Sum of a list of rationals, kernel-computable. -/
def listSum (l : List ℚ) : ℚ := l.foldr ratAdd 0

/-- Floor of a rational, kernel-computable. -/
def ratFloor (q : ℚ) : ℤ := q.num.fdiv q.den

/-- Round-half-to-even of a rational to an integer, modelling Python
builtin round on an exact value. -/
def roundHalfEven (q : ℚ) : ℤ :=
  let f := ratFloor q
  if ratSub q f < mkRat 1 2 then f
  else if mkRat 1 2 < ratSub q f then f + 1
  else if f % 2 = 0 then f else f + 1

/-- Python round(x, 2). -/
def round2 (q : ℚ) : ℚ := Rat.divInt (roundHalfEven (ratMul 100 q)) 100

/-- np.mean over a list (division by zero yields 0 for the empty list,
which the analyzed code never relies on). -/
def npMean (l : List ℚ) : ℚ := ratDiv (listSum l) (l.length : ℚ)

/-- Decimal digits of a natural number, most significant first; the fuel
argument makes the recursion structural. -/
def natCharsAux : Nat → Nat → List Char
  | 0, _ => []
  | _ + 1, 0 => []
  | fuel + 1, n => natCharsAux fuel (n / 10) ++ [Nat.digitChar (n % 10)]

/-- Decimal rendering of a natural number, as Python str. -/
def natChars (n : Nat) : List Char :=
  if n = 0 then ['0'] else natCharsAux (n + 1) n

/-- Insert a thousands separator after every third digit; the input is the
digit list least significant first, the counter counts digits emitted
since the last separator. -/
def groupAux : Nat → List Char → List Char
  | _, [] => []
  | cnt, c :: rest =>
    if cnt = 3 then ',' :: c :: groupAux 1 rest else c :: groupAux (cnt + 1) rest

/-- Thousands-grouped decimal rendering of a natural number, modelling the
Python format specifier with a comma. -/
def commaChars (n : Nat) : List Char :=
  (groupAux 0 (natChars n).reverse).reverse

/-- The d fractional digits of a fixed-point rendering, zero padded,
most significant first. -/
def fracChars : Nat → Nat → List Char
  | 0, _ => []
  | d + 1, fp => fracChars d (fp / 10) ++ [Nat.digitChar (fp % 10)]

/-- Python fixed-point float formatting f-string with the given number of
decimals, optionally thousands-grouped, applied to an exact rational. -/
def formatFixedChars (useComma : Bool) (decimals : Nat) (q : ℚ) : List Char :=
  let scaled := roundHalfEven (ratMul ((10 ^ decimals : ℕ) : ℚ) q)
  let sign : List Char := if scaled < 0 then ['-'] else []
  let m := scaled.natAbs
  let ip := m / 10 ^ decimals
  let fp := m % 10 ^ decimals
  let ipChars := if useComma then commaChars ip else natChars ip
  if decimals = 0 then sign ++ ipChars
  else sign ++ ipChars ++ '.' :: fracChars decimals fp

/-- String form of the fixed-point formatter. -/
def formatFixed (useComma : Bool) (decimals : Nat) (q : ℚ) : String :=
  String.mk (formatFixedChars useComma decimals q)

/-- Python str.startswith. -/
def startswith (s p : String) : Bool := p.data.isPrefixOf s.data

/-- Python str.endswith. -/
def endswith (s p : String) : Bool := p.data.isSuffixOf s.data

instance {ε α : Type} [DecidableEq ε] [DecidableEq α] : DecidableEq (Except ε α) :=
  fun x y =>
    match x, y with
    | .error e, .error f =>
      if h : e = f then .isTrue (congrArg Except.error h)
      else .isFalse (fun hh => h (Except.error.inj hh))
    | .error _, .ok _ => .isFalse (fun hh => Except.noConfusion hh)
    | .ok _, .error _ => .isFalse (fun hh => Except.noConfusion hh)
    | .ok a, .ok b =>
      if h : a = b then .isTrue (congrArg Except.ok h)
      else .isFalse (fun hh => h (Except.ok.inj hh))

/-- Errors of the embedded program. The code under analysis performs no
input validation; the only failure it can produce is a Python IndexError
from out-of-range indexing, modelled by indexError. The remaining
constructors embed the error taxonomy named by the specification
(InvalidSeriesLength, InvalidEntityData, InvalidMode) so that claims about
those failures can be stated; the embedded code never produces them. -/
inductive AnalyzerError where
  | indexError (idx : Nat)
  | invalidSeriesLength
  | invalidEntityData (entity_id : Int) (reason : String)
  | invalidMode (mode : String)
deriving DecidableEq

/-- Fail-fast evaluation of a Python comprehension or loop body over a
list, stopping at the first error, as Python exception propagation does. -/
def comprehend {α β : Type} (f : α → Except AnalyzerError β) :
    List α → Except AnalyzerError (List β)
  | [] => .ok []
  | a :: rest =>
    match f a with
    | .error e => .error e
    | .ok v =>
      match comprehend f rest with
      | .error e => .error e
      | .ok vs => .ok (v :: vs)

/-- The month labels of the analyzer, January through December. -/
def months : List String :=
  ["Jan", "Feb", "Mar", "Apr", "May", "Jun",
   "Jul", "Aug", "Sep", "Oct", "Nov", "Dec"]

/-- The monthly series selected by the analysis mode (lines 64-75 and
274-283 of the source, which are identical): the percentage series when
the mode string equals "Percentages", the absolute series otherwise. -/
def selectedValues (analysis_mode : String) (monthly_calls calls_percentages : List ℚ) :
    List ℚ :=
  if analysis_mode = "Percentages" then calls_percentages else monthly_calls

/-- Monthly value cell text: two decimals plus a percent sign in
Percentages mode, zero decimals comma-grouped otherwise (lines 100-103 and
300-303). -/
def valueCellText (analysis_mode : String) (v : ℚ) : String :=
  if analysis_mode = "Percentages" then String.mk (formatFixedChars false 2 v ++ ['%'])
  else String.mk (formatFixedChars true 0 v)

/-- Deviation cell text: two decimals, a plus sign prepended when the
deviation is nonnegative (lines 114-118 and 305-315, which agree). -/
def devCellText (analysis_mode : String) (w : ℚ) : String :=
  if 0 ≤ w then
    String.mk ('+' :: (if analysis_mode = "Percentages" then formatFixedChars false 2 w
                       else formatFixedChars true 2 w))
  else
    String.mk (if analysis_mode = "Percentages" then formatFixedChars false 2 w
               else formatFixedChars true 2 w)

/-- The values computed by create_historical_variability_table: the local
variables of the source function together with the resulting table. -/
structure SingleTable where
  average_mix : ℚ
  monthly_values : List ℚ
  avg_unit : String
  var_unit : String
  variability : List ℚ
  columns : List String
  table_data : List (List String)
deriving DecidableEq

/-- Embedding of create_historical_variability_table (source lines
19-165, computation and table assembly; the styling callback of that
function is not modelled). Indexing monthly_values[i] with i out of range
raises IndexError in Python, modelled as the error case. -/
def create_historical_variability_table (monthly_calls calls_percentages : List ℚ)
    (analysis_mode : String) (company_name : String) (company_id : Int) :
    Except AnalyzerError SingleTable :=
  let monthly_values := selectedValues analysis_mode monthly_calls calls_percentages
  let average_mix := round2 (npMean monthly_values)
  let avg_unit := if analysis_mode = "Percentages" then "%" else "calls"
  let var_unit := if analysis_mode = "Percentages" then "pp" else "calls"
  match comprehend (fun i =>
      match monthly_values.get? i with
      | some v => .ok (round2 (ratSub v average_mix))
      | none => .error (.indexError i)) (List.range 12) with
  | .error e => .error e
  | .ok variability =>
    let row_avg := ("Average Mix (" ++ avg_unit ++ ")") ::
      (if analysis_mode = "Percentages" then String.mk (formatFixedChars false 2 average_mix)
       else String.mk (formatFixedChars true 2 average_mix)) ::
      (List.replicate 11 "" ++ ("Avg Mix (" ++ avg_unit ++ ")") :: List.replicate 11 "")
    match comprehend (fun i =>
        match monthly_values.get? i with
        | some v => .ok (valueCellText analysis_mode v)
        | none => .error (.indexError i)) (List.range 12) with
    | .error e => .error e
    | .ok value_cells =>
      let row_values := "Monthly Values" :: value_cells ++
        ("Monthly Values (" ++ avg_unit ++ ")") :: List.replicate 11 ""
      let row_var := "Variability" :: List.replicate 12 "" ++
        ("Variability (" ++ var_unit ++ ")") ::
        (List.range 12).map (fun i => devCellText analysis_mode (variability.getD i 0))
      let columns := "Metric" :: months ++ "Avg Mix" :: months.map (fun m => m ++ "_var")
      .ok { average_mix, monthly_values, avg_unit, var_unit, variability,
            columns, table_data := [row_avg, row_values, row_var] }

/-- One record of the all_companies_data frame consumed by
create_all_companies_variability_table. Fields are optional because the
source reads them with row.get and a default. -/
structure CompanyRow where
  company_name : Option String
  company_id : Option Int
  monthly_calls : Option (List ℚ)
  calls_percentages : Option (List ℚ)
deriving DecidableEq

/-- The monthly series the builder uses for a company record: missing
series default to np.zeros(12) (source lines 263-271), then the analysis
mode selects one series (lines 274-283). -/
def companyValues (analysis_mode : String) (r : CompanyRow) : List ℚ :=
  selectedValues analysis_mode
    (r.monthly_calls.getD (List.replicate 12 0))
    (r.calls_percentages.getD (List.replicate 12 0))

/-- The rounded average the builder computes for a company record. -/
def companyAverage (analysis_mode : String) (r : CompanyRow) : ℚ :=
  round2 (npMean (companyValues analysis_mode r))

/-- The rounded deviation of month i for a company record. -/
def companyDeviation (analysis_mode : String) (r : CompanyRow) (i : Nat) : ℚ :=
  round2 (ratSub ((companyValues analysis_mode r).getD i 0)
    (companyAverage analysis_mode r))

/-- Embedding of the per-company loop body of
create_all_companies_variability_table (source lines 259-317): defaulting
of missing fields, average, variability list, then the 26 row cells. -/
def company_row_cells (analysis_mode : String) (r : CompanyRow) :
    Except AnalyzerError (List String) :=
  let company_name := r.company_name.getD "Unknown Company"
  let monthly_values := companyValues analysis_mode r
  let average_mix := round2 (npMean monthly_values)
  let avg_cell :=
    if analysis_mode = "Percentages" then String.mk (formatFixedChars false 2 average_mix ++ ['%'])
    else String.mk (formatFixedChars true 2 average_mix)
  match comprehend (fun i =>
      match monthly_values.get? i with
      | some v => .ok (round2 (ratSub v average_mix))
      | none => .error (.indexError i)) (List.range 12) with
  | .error e => .error e
  | .ok variability =>
    match comprehend (fun i =>
        match monthly_values.get? i with
        | some v => .ok [valueCellText analysis_mode v,
                         devCellText analysis_mode (variability.getD i 0)]
        | none => .error (.indexError i)) (List.range 12) with
    | .error e => .error e
    | .ok pairs => .ok (company_name :: avg_cell :: pairs.flatten)

/-- A result table: column names and data rows of display strings. -/
structure Table where
  columns : List String
  rows : List (List String)
deriving DecidableEq

/-- The 26 column names of the all-companies table (source lines
253-256). -/
def allCompaniesColumns : List String :=
  "Company" :: "Average Mix" :: (months.map (fun m => [m, m ++ "_var"])).flatten

/-- Embedding of create_all_companies_variability_table (source lines
211-320): empty input returns the two-column empty frame of lines
243-246; otherwise one row per company record in input order. -/
def create_all_companies_variability_table (all_companies_data : List CompanyRow)
    (grouping_method : String) (analysis_mode : String) :
    Except AnalyzerError Table :=
  if all_companies_data.isEmpty then
    .ok { columns := ["Company", "Average Mix"], rows := [] }
  else
    match comprehend (company_row_cells analysis_mode) all_companies_data with
    | .error e => .error e
    | .ok rows => .ok { columns := allCompaniesColumns, rows := rows }

/-- Green style applied to a deviation cell whose text starts with a plus
sign (source line 341); the spec names this tag DeviationPositive. -/
def deviationPositiveStyle : String := "background-color: #d4edda; color: #155724"

/-- Red style applied to a deviation cell whose text starts with a minus
sign (source line 343); the spec names this tag DeviationNegative. -/
def deviationNegativeStyle : String := "background-color: #f8d7da; color: #721c24"

/-- Gray style applied to a deviation cell whose text starts with neither
sign (source line 345); the spec names this tag DeviationZero. -/
def deviationZeroStyle : String := "background-color: #f8f9fa"

/-- Light blue style of plain month value cells (source line 350). -/
def valueCellStyle : String := "background-color: #e8f4f8"

/-- Style of one cell at a column of the all-companies table, from the
column name and the cell text (source lines 333-350). Cells are always
strings here, so the isinstance branch of line 339 is always taken. -/
def styleCell (col_name var_value : String) : String :=
  if endswith col_name "_var" then
    if startswith var_value "+" then deviationPositiveStyle
    else if startswith var_value "-" then deviationNegativeStyle
    else deviationZeroStyle
  else valueCellStyle

/-- Embedding of highlight_variability_table (source lines 323-352):
styles for one row of the all-companies table. -/
def highlight_variability_table (columns : List String) (row : List String) :
    List String :=
  "font-weight: bold; background-color: #f8f9fa" ::
  "background-color: #fff2cc; font-weight: bold" ::
  List.zipWith styleCell (columns.drop 2) (row.drop 2)

/-- The style map produced by build: df.style.apply(highlight_variability_table,
axis=1) of source line 354, one style list per data row. -/
def all_companies_style_map (t : Table) : List (List String) :=
  t.rows.map (highlight_variability_table t.columns)

/-- The example absolute monthly series of the source and the spec. -/
def demo_monthly_calls : List ℚ :=
  [1200, 1100, 1300, 1400, 1500, 1600, 1700, 1600, 1500, 1400, 1300, 1200]

/-- The example percentage series of the source and the spec. -/
def demo_calls_percentages : List ℚ :=
  [mkRat 833 100, mkRat 764 100, mkRat 903 100, mkRat 972 100,
   mkRat 1042 100, mkRat 1111 100, mkRat 1181 100, mkRat 1111 100,
   mkRat 1042 100, mkRat 972 100, mkRat 903 100, mkRat 833 100]

/-- A cell text rendered with exactly two decimal places: it ends in a
dot followed by two digits, and contains exactly one dot. -/
def twoDecimalText (s : String) : Bool :=
  (match s.data.reverse with
   | d0 :: d1 :: c :: _ => d1.isDigit && d0.isDigit && (c == '.')
   | _ => false) && (s.data.count '.' == 1)

/-- A company record holding the example series. -/
def demoRow : CompanyRow :=
  ⟨some "Monarch HVAC", some 1, some demo_monthly_calls, some demo_calls_percentages⟩

/-- A company record whose two series are all zeros. -/
def zeroRow : CompanyRow :=
  ⟨some "Zero Co", some 1, some (List.replicate 12 0), some (List.replicate 12 0)⟩

/-- A company record with both monthly series missing. -/
def noDataRow : CompanyRow := ⟨some "NoData Co", some 7, none, none⟩

/-- The table built for the example company in Absolute mode. -/
def demoTable : Table :=
  (create_all_companies_variability_table [demoRow] "by_company" "Absolute").toOption.getD
    ⟨[], []⟩

/-- The single-company result for the example series in Absolute mode. -/
def singleDemo : SingleTable :=
  (create_historical_variability_table demo_monthly_calls demo_calls_percentages
    "Absolute" "Company" 1).toOption.getD ⟨0, [], "", "", [], [], []⟩

/-- A 12-month series on which the rounded deviations sum to 0.09: one
month at 0.094 and eleven months at -0.004. -/
def c9_series : List ℚ := mkRat 94 1000 :: List.replicate 11 (mkRat (-4) 1000)

/-- The table built for the all-zero company in Absolute mode. -/
def zeroTable : Table :=
  (create_all_companies_variability_table [zeroRow] "by_company" "Absolute").toOption.getD
    ⟨[], []⟩

/-! ### Bridges from the kernel-computable operations to the library ones -/

theorem num_den_cast_ne_zero (a : ℚ) : ((a.den : ℚ)) ≠ 0 := by
  exact_mod_cast a.den_nz

theorem ratAdd_eq (a b : ℚ) : ratAdd a b = a + b := by
  rw [ratAdd, Rat.divInt_eq_div]
  conv_rhs => rw [← Rat.num_div_den a, ← Rat.num_div_den b]
  rw [div_add_div _ _ (num_den_cast_ne_zero a) (num_den_cast_ne_zero b)]
  push_cast
  ring_nf

theorem ratSub_eq (a b : ℚ) : ratSub a b = a - b := by
  rw [ratSub, Rat.divInt_eq_div]
  conv_rhs => rw [← Rat.num_div_den a, ← Rat.num_div_den b]
  rw [div_sub_div _ _ (num_den_cast_ne_zero a) (num_den_cast_ne_zero b)]
  push_cast
  ring_nf

theorem ratMul_eq (a b : ℚ) : ratMul a b = a * b := by
  rw [ratMul, Rat.divInt_eq_div]
  conv_rhs => rw [← Rat.num_div_den a, ← Rat.num_div_den b]
  rw [div_mul_div_comm]
  push_cast
  ring_nf

theorem ratDiv_eq (a b : ℚ) : ratDiv a b = a / b := by
  rcases eq_or_ne b 0 with hb | hb
  · subst hb
    simp [ratDiv, Rat.divInt_eq_div]
  · have hbn : ((b.num : ℚ)) ≠ 0 := by
      exact_mod_cast Rat.num_ne_zero.mpr hb
    have ha' := num_den_cast_ne_zero a
    have hb' := num_den_cast_ne_zero b
    rw [ratDiv, Rat.divInt_eq_div]
    conv_rhs => rw [← Rat.num_div_den a, ← Rat.num_div_den b]
    push_cast
    field_simp

theorem listSum_eq (l : List ℚ) : listSum l = l.sum := by
  induction l with
  | nil => rfl
  | cons x t ih => rw [listSum, List.foldr_cons, ← listSum, ih, ratAdd_eq, List.sum_cons]

theorem npMean_eq (l : List ℚ) : npMean l = l.sum / l.length := by
  rw [npMean, ratDiv_eq, listSum_eq]

theorem ratFloor_eq (q : ℚ) : ratFloor q = ⌊q⌋ := by
  rw [Rat.floor_def, ratFloor]
  exact Int.fdiv_eq_ediv _ (Int.ofNat_nonneg _)

theorem mkRat_half : (mkRat 1 2 : ℚ) = 1 / 2 := by
  rw [Rat.mkRat_eq_div]
  norm_num

/-! ### Properties of round-half-to-even and round2 -/

theorem roundHalfEven_abs (q : ℚ) : |(roundHalfEven q : ℚ) - q| ≤ 1 / 2 := by
  have h1 : ((⌊q⌋ : ℤ) : ℚ) ≤ q := Int.floor_le q
  have h2 : q < ((⌊q⌋ : ℤ) : ℚ) + 1 := Int.lt_floor_add_one q
  simp only [roundHalfEven, ratFloor_eq, ratSub_eq, mkRat_half]
  split_ifs with ha hb hc
  · rw [abs_le]
    constructor <;> linarith
  · rw [abs_le]
    push_cast
    constructor <;> linarith
  · have heq : q - ((⌊q⌋ : ℤ) : ℚ) = 1 / 2 := le_antisymm (not_lt.mp hb) (not_lt.mp ha)
    rw [abs_le]
    constructor <;> linarith
  · have heq : q - ((⌊q⌋ : ℤ) : ℚ) = 1 / 2 := le_antisymm (not_lt.mp hb) (not_lt.mp ha)
    rw [abs_le]
    push_cast
    constructor <;> linarith

theorem round2_eq_div (q : ℚ) :
    round2 q = ((roundHalfEven (100 * q) : ℤ) : ℚ) / 100 := by
  rw [round2, ratMul_eq, Rat.divInt_eq_div]
  norm_num

theorem round2_abs (q : ℚ) : |round2 q - q| ≤ 1 / 200 := by
  have h := abs_le.mp (roundHalfEven_abs (100 * q))
  rw [round2_eq_div, abs_le]
  constructor <;> [linarith; linarith]

theorem roundHalfEven_intCast (n : ℤ) : roundHalfEven ((n : ℤ) : ℚ) = n := by
  rw [roundHalfEven]
  have hfl : ratFloor ((n : ℤ) : ℚ) = n := by rw [ratFloor_eq, Int.floor_intCast]
  simp only [ratSub_eq, mkRat_half, hfl]
  rw [if_pos]
  rw [sub_self]
  norm_num

theorem round2_nonneg_iff (q : ℚ) : 0 ≤ round2 q ↔ 0 ≤ roundHalfEven (100 * q) := by
  rw [round2_eq_div, le_div_iff₀ (by norm_num : (0 : ℚ) < 100), zero_mul]
  norm_cast

theorem round2_neg_iff (q : ℚ) : round2 q < 0 ↔ roundHalfEven (100 * q) < 0 := by
  rw [← not_le, ← not_le]
  exact not_congr (round2_nonneg_iff q)

/-! ### Properties of comprehend and list helpers -/

theorem comprehend_eq_map {α β : Type} (f : α → Except AnalyzerError β) (g : α → β)
    (l : List α) (h : ∀ a ∈ l, f a = .ok (g a)) : comprehend f l = .ok (l.map g) := by
  induction l with
  | nil => rfl
  | cons a t ih =>
    have ha := h a (List.mem_cons_self a t)
    have ht := ih (fun x hx => h x (List.mem_cons_of_mem a hx))
    rw [comprehend, ha, ht, List.map_cons]

theorem comprehend_append {α β : Type} (f : α → Except AnalyzerError β) (l₁ l₂ : List α) :
    comprehend f (l₁ ++ l₂) =
      match comprehend f l₁ with
      | .error e => .error e
      | .ok v₁ =>
        match comprehend f l₂ with
        | .error e => .error e
        | .ok v₂ => .ok (v₁ ++ v₂) := by
  induction l₁ with
  | nil =>
    cases h : comprehend f l₂ <;> simp [comprehend, h]
  | cons a t ih =>
    rw [List.cons_append, comprehend, comprehend, ih]
    cases f a <;> cases comprehend f t <;> cases comprehend f l₂ <;> simp

theorem comprehend_get {α β : Type} (f : α → Except AnalyzerError β) :
    ∀ (l : List α) (out : List β) (k : Nat) (x : α),
      comprehend f l = .ok out → l.get? k = some x →
      ∃ y, f x = .ok y ∧ out.get? k = some y := by
  intro l
  induction l with
  | nil => intro out k x _ hk; simp at hk
  | cons a t ih =>
    intro out k x hok hk
    rw [comprehend] at hok
    cases hfa : f a with
    | error e => rw [hfa] at hok; exact absurd hok (by simp)
    | ok v =>
      rw [hfa] at hok
      cases hct : comprehend f t with
      | error e => rw [hct] at hok; exact absurd hok (by simp)
      | ok vs =>
        rw [hct] at hok
        have hout : out = v :: vs := by
          cases hok; rfl
        subst hout
        cases k with
        | zero =>
          have : a = x := by simpa using hk
          subst this
          exact ⟨v, hfa, rfl⟩
        | succ k =>
          have hk' : t.get? k = some x := by simpa using hk
          obtain ⟨y, hy1, hy2⟩ := ih vs k x hct hk'
          exact ⟨y, hy1, by simpa using hy2⟩

theorem comprehend_length {α β : Type} (f : α → Except AnalyzerError β) :
    ∀ (l : List α) (out : List β), comprehend f l = .ok out → out.length = l.length := by
  intro l
  induction l with
  | nil => intro out h; cases h; rfl
  | cons a t ih =>
    intro out h
    rw [comprehend] at h
    cases hfa : f a with
    | error e => rw [hfa] at h; exact absurd h (by simp)
    | ok v =>
      rw [hfa] at h
      cases hct : comprehend f t with
      | error e => rw [hct] at h; exact absurd h (by simp)
      | ok vs =>
        rw [hct] at h
        cases h
        simp [ih vs hct]

theorem comprehend_error_member {α β : Type} (f : α → Except AnalyzerError β) :
    ∀ (l : List α) (e : AnalyzerError), comprehend f l = .error e →
      ∃ a ∈ l, f a = .error e := by
  intro l
  induction l with
  | nil => intro e h; cases h
  | cons a t ih =>
    intro e h
    rw [comprehend] at h
    cases hfa : f a with
    | error e' =>
      rw [hfa] at h
      cases h
      exact ⟨a, List.mem_cons_self a t, hfa⟩
    | ok v =>
      rw [hfa] at h
      cases hct : comprehend f t with
      | error e' =>
        rw [hct] at h
        cases h
        obtain ⟨x, hx1, hx2⟩ := ih e hct
        exact ⟨x, List.mem_cons_of_mem a hx1, hx2⟩
      | ok vs => rw [hct] at h; cases h

theorem comprehend_range_error (f : Nat → Except AnalyzerError ℚ) (g : Nat → ℚ)
    (m : Nat) (e : AnalyzerError)
    (hok : ∀ i, i < m → f i = .ok (g i)) (herr : f m = .error e) :
    ∀ n, m < n → comprehend f (List.range n) = .error e := by
  intro n
  induction n with
  | zero => intro h; cases h
  | succ n ih =>
    intro hmn
    rw [List.range_succ, comprehend_append]
    rcases Nat.lt_or_ge m n with hlt | hge
    · rw [ih hlt]
    · have hm : m = n := Nat.le_antisymm (Nat.le_of_lt_succ hmn) hge
      subst hm
      rw [comprehend_eq_map f g _ (fun i hi => hok i (List.mem_range.mp hi))]
      rw [comprehend, herr]

theorem get?_eq_getD_of_lt {α : Type} (d : α) :
    ∀ (l : List α) (i : Nat), i < l.length → l.get? i = some (l.getD i d) := by
  intro l
  induction l with
  | nil => intro i h; cases h
  | cons a t ih =>
    intro i h
    cases i with
    | zero => rfl
    | succ i =>
      have : i < t.length := by simpa using h
      simpa [List.get?, List.getD] using ih i this

theorem map_range_getD (g : Nat → ℚ) (n i : Nat) (h : i < n) :
    ((List.range n).map g).getD i 0 = g i := by
  have h1 : ((List.range n).map g).get? i = some (g i) := by
    rw [List.get?_map, List.get?_range h]
    rfl
  have h2 : ((List.range n).map g).get? i =
      some (((List.range n).map g).getD i 0) := by
    apply get?_eq_getD_of_lt
    simpa using h
  rw [h1] at h2
  exact (Option.some_inj.mp h2).symm

theorem flatten_pairs_get {α β : Type} (f g : α → β) :
    ∀ (l : List α) (i : Nat) (x : α), l.get? i = some x →
      ((l.map fun a => [f a, g a]).flatten.get? (2 * i) = some (f x) ∧
       (l.map fun a => [f a, g a]).flatten.get? (2 * i + 1) = some (g x)) := by
  intro l
  induction l with
  | nil => intro i x h; simp at h
  | cons a t ih =>
    intro i x h
    cases i with
    | zero =>
      have : a = x := by simpa using h
      subst this
      constructor <;> rfl
    | succ i =>
      have h' : t.get? i = some x := by simpa using h
      obtain ⟨h1, h2⟩ := ih i x h'
      have e1 : 2 * (i + 1) = (2 * i) + 2 := by ring
      have e2 : 2 * (i + 1) + 1 = (2 * i + 1) + 2 := by ring
      refine ⟨?_, ?_⟩
      · rw [e1]; simpa using h1
      · rw [e2]; simpa using h2

theorem get?_zipWith {α β γ : Type} (f : α → β → γ) :
    ∀ (as : List α) (bs : List β) (k : Nat) (a : α) (b : β),
      as.get? k = some a → bs.get? k = some b →
      (List.zipWith f as bs).get? k = some (f a b) := by
  intro as
  induction as with
  | nil => intro bs k a b h _; simp at h
  | cons x xs ih =>
    intro bs k a b ha hb
    cases bs with
    | nil => simp at hb
    | cons y ys =>
      cases k with
      | zero =>
        have hxa : x = a := by simpa using ha
        have hyb : y = b := by simpa using hb
        subst hxa; subst hyb
        rfl
      | succ k =>
        have ha' : xs.get? k = some a := by simpa using ha
        have hb' : ys.get? k = some b := by simpa using hb
        simpa using ih ys k a b ha' hb'

/-! ### Structure of the formatted strings -/

theorem isDigit_digitChar_of_lt (d : Nat) (h : d < 10) :
    (Nat.digitChar d).isDigit = true := by
  interval_cases d <;> rfl

theorem isDigit_digitChar_mod (n : Nat) : (Nat.digitChar (n % 10)).isDigit = true :=
  isDigit_digitChar_of_lt _ (Nat.mod_lt _ (by norm_num))

theorem natCharsAux_digits :
    ∀ (fuel n : Nat) (c : Char), c ∈ natCharsAux fuel n → c.isDigit = true := by
  intro fuel
  induction fuel with
  | zero => intro n c h; simp [natCharsAux] at h
  | succ fuel ih =>
    intro n c h
    cases n with
    | zero => simp [natCharsAux] at h
    | succ n =>
      simp only [natCharsAux, List.mem_append, List.mem_singleton] at h
      rcases h with h | h
      · exact ih _ _ h
      · subst h
        exact isDigit_digitChar_mod _

theorem natChars_digits (n : Nat) (c : Char) (h : c ∈ natChars n) :
    c.isDigit = true := by
  rw [natChars] at h
  split_ifs at h
  · rw [List.mem_singleton] at h
    subst h
    rfl
  · exact natCharsAux_digits _ _ _ h

theorem groupAux_mem :
    ∀ (l : List Char) (k : Nat) (c : Char), c ∈ groupAux k l → c ∈ l ∨ c = ',' := by
  intro l
  induction l with
  | nil => intro k c h; simp [groupAux] at h
  | cons a t ih =>
    intro k c h
    rw [groupAux] at h
    split_ifs at h
    · simp only [List.mem_cons] at h
      rcases h with h | h | h
      · exact Or.inr h
      · exact Or.inl (by simp [h])
      · rcases ih _ _ h with h' | h'
        · exact Or.inl (List.mem_cons_of_mem a h')
        · exact Or.inr h'
    · simp only [List.mem_cons] at h
      rcases h with h | h
      · exact Or.inl (by simp [h])
      · rcases ih _ _ h with h' | h'
        · exact Or.inl (List.mem_cons_of_mem a h')
        · exact Or.inr h'

theorem commaChars_mem (n : Nat) (c : Char) (h : c ∈ commaChars n) :
    c.isDigit = true ∨ c = ',' := by
  rw [commaChars, List.mem_reverse] at h
  rcases groupAux_mem _ _ _ h with h' | h'
  · exact Or.inl (natChars_digits n c (List.mem_reverse.mp h'))
  · exact Or.inr h'

theorem ipChars_no_dot (u : Bool) (m : Nat) (c : Char)
    (h : c ∈ (if u then commaChars m else natChars m)) : c ≠ '.' := by
  intro hc
  subst hc
  cases u
  · have := natChars_digits m '.' (by simpa using h)
    simp at this
  · rcases commaChars_mem m '.' (by simpa using h) with h' | h'
    · simp at h'
    · simp at h'

theorem fracChars_two (fp : Nat) :
    fracChars 2 fp = [Nat.digitChar (fp / 10 % 10), Nat.digitChar (fp % 10)] := rfl

/-- The scaled integer inside formatFixedChars for a value that is already
a rounded two-decimal number. -/
theorem scaled_round2 (z : ℚ) :
    ratMul ((10 ^ 2 : ℕ) : ℚ) (round2 z) = ((roundHalfEven (ratMul 100 z) : ℤ) : ℚ) := by
  rw [ratMul_eq, round2, Rat.divInt_eq_div, ratMul_eq]
  push_cast
  field_simp

theorem formatFixedChars_round2 (u : Bool) (z : ℚ) :
    formatFixedChars u 2 (round2 z) =
      (if roundHalfEven (ratMul 100 z) < 0 then ['-'] else []) ++
      (if u then commaChars ((roundHalfEven (ratMul 100 z)).natAbs / 10 ^ 2)
       else natChars ((roundHalfEven (ratMul 100 z)).natAbs / 10 ^ 2)) ++
      '.' :: fracChars 2 ((roundHalfEven (ratMul 100 z)).natAbs % 10 ^ 2) := by
  rw [formatFixedChars, scaled_round2, roundHalfEven_intCast]
  simp only [List.append_assoc]
  rfl

theorem rhe_ratMul (z : ℚ) :
    roundHalfEven (ratMul 100 z) = roundHalfEven (100 * z) := by
  rw [ratMul_eq]

theorem isPrefixOf_single_self (c : Char) (l : List Char) :
    ([c] : List Char).isPrefixOf (c :: l) = true := by
  simp [List.isPrefixOf]

theorem isPrefixOf_single_ne {c d : Char} (h : c ≠ d) (l : List Char) :
    ([c] : List Char).isPrefixOf (d :: l) = false := by
  simp [List.isPrefixOf, beq_iff_eq, h]

theorem isPrefixOf_self_append : ∀ l t : List Char, l.isPrefixOf (l ++ t) = true := by
  intro l t
  induction l with
  | nil => simp [List.isPrefixOf]
  | cons c cs ih => simp [List.isPrefixOf, ih]

theorem endswith_var (s : String) : endswith (s ++ "_var") "_var" = true := by
  show (("_var" : String).data.reverse).isPrefixOf
    ((s.data ++ ("_var" : String).data).reverse) = true
  rw [List.reverse_append]
  exact isPrefixOf_self_append _ _

theorem startswith_devCellText_plus (mode : String) (z : ℚ) :
    startswith (devCellText mode (round2 z)) "+" = true ↔ 0 ≤ round2 z := by
  by_cases hw : 0 ≤ round2 z
  · rw [devCellText, if_pos hw]
    have h1 : (['+'] : List Char).isPrefixOf ('+' ::
        (if mode = "Percentages" then formatFixedChars false 2 (round2 z)
         else formatFixedChars true 2 (round2 z))) = true :=
      isPrefixOf_single_self '+' _
    rw [show startswith (String.mk ('+' ::
        (if mode = "Percentages" then formatFixedChars false 2 (round2 z)
         else formatFixedChars true 2 (round2 z)))) "+" = true from h1]
    simp [hw]
  · rw [devCellText, if_neg hw]
    have hn : roundHalfEven (ratMul 100 z) < 0 := by
      rw [rhe_ratMul]
      exact (round2_neg_iff z).mp (lt_of_not_le hw)
    have h1 : startswith (String.mk
        (if mode = "Percentages" then formatFixedChars false 2 (round2 z)
         else formatFixedChars true 2 (round2 z))) "+" = false := by
      split
      · rw [formatFixedChars_round2 false z, if_pos hn]
        exact isPrefixOf_single_ne (by decide) _
      · rw [formatFixedChars_round2 true z, if_pos hn]
        exact isPrefixOf_single_ne (by decide) _
    rw [h1]
    simp [hw]

theorem startswith_devCellText_minus (mode : String) (z : ℚ) :
    startswith (devCellText mode (round2 z)) "-" = true ↔ round2 z < 0 := by
  by_cases hw : 0 ≤ round2 z
  · rw [devCellText, if_pos hw]
    have h1 : startswith (String.mk ('+' ::
        (if mode = "Percentages" then formatFixedChars false 2 (round2 z)
         else formatFixedChars true 2 (round2 z)))) "-" = false :=
      isPrefixOf_single_ne (by decide) _
    rw [h1]
    simp [not_lt.mpr hw]
  · rw [devCellText, if_neg hw]
    have hn : roundHalfEven (ratMul 100 z) < 0 := by
      rw [rhe_ratMul]
      exact (round2_neg_iff z).mp (lt_of_not_le hw)
    have h1 : startswith (String.mk
        (if mode = "Percentages" then formatFixedChars false 2 (round2 z)
         else formatFixedChars true 2 (round2 z))) "-" = true := by
      split
      · rw [formatFixedChars_round2 false z, if_pos hn]
        exact isPrefixOf_single_self '-' _
      · rw [formatFixedChars_round2 true z, if_pos hn]
        exact isPrefixOf_single_self '-' _
    rw [h1]
    simp [lt_of_not_le hw]

theorem devCellText_zero (mode : String) : devCellText mode 0 = "+0.00" := by
  rw [devCellText, if_pos (le_refl (0 : ℚ))]
  split
  · rfl
  · rfl

theorem devCellText_data_round2 (mode : String) (z : ℚ) :
    ∃ pre : List Char, ∃ u : Bool,
      '.' ∉ pre ∧
      (devCellText mode (round2 z)).data =
        pre ++ ((if u then commaChars ((roundHalfEven (ratMul 100 z)).natAbs / 10 ^ 2)
                 else natChars ((roundHalfEven (ratMul 100 z)).natAbs / 10 ^ 2)) ++
          '.' :: fracChars 2 ((roundHalfEven (ratMul 100 z)).natAbs % 10 ^ 2)) := by
  rw [devCellText]
  by_cases hw : 0 ≤ round2 z
  · rw [if_pos hw]
    split
    · refine ⟨'+' :: (if roundHalfEven (ratMul 100 z) < 0 then ['-'] else []), false,
        ?_, ?_⟩
      · split_ifs <;> simp
      · show '+' :: formatFixedChars false 2 (round2 z) = _
        rw [formatFixedChars_round2 false z]
        simp [List.append_assoc]
    · refine ⟨'+' :: (if roundHalfEven (ratMul 100 z) < 0 then ['-'] else []), true,
        ?_, ?_⟩
      · split_ifs <;> simp
      · show '+' :: formatFixedChars true 2 (round2 z) = _
        rw [formatFixedChars_round2 true z]
        simp [List.append_assoc]
  · rw [if_neg hw]
    split
    · refine ⟨(if roundHalfEven (ratMul 100 z) < 0 then ['-'] else []), false, ?_, ?_⟩
      · split_ifs <;> simp
      · show formatFixedChars false 2 (round2 z) = _
        rw [formatFixedChars_round2 false z]
        simp [List.append_assoc]
    · refine ⟨(if roundHalfEven (ratMul 100 z) < 0 then ['-'] else []), true, ?_, ?_⟩
      · split_ifs <;> simp
      · show formatFixedChars true 2 (round2 z) = _
        rw [formatFixedChars_round2 true z]
        simp [List.append_assoc]

theorem isDigit_ne_dot {c : Char} (h : c.isDigit = true) : c ≠ '.' := by
  intro hc
  subst hc
  simp at h

theorem twoDecimalText_devCellText (mode : String) (z : ℚ) :
    twoDecimalText (devCellText mode (round2 z)) = true := by
  obtain ⟨pre, u, hpre, hdata⟩ := devCellText_data_round2 mode z
  set fp := (roundHalfEven (ratMul 100 z)).natAbs % 10 ^ 2 with hfp
  set X := (if u then commaChars ((roundHalfEven (ratMul 100 z)).natAbs / 10 ^ 2)
            else natChars ((roundHalfEven (ratMul 100 z)).natAbs / 10 ^ 2)) with hX
  have hd0 : (Nat.digitChar (fp % 10)).isDigit = true := isDigit_digitChar_mod fp
  have hd1 : (Nat.digitChar (fp / 10 % 10)).isDigit = true :=
    isDigit_digitChar_mod (fp / 10)
  have hXnd : '.' ∉ X := fun hm => (ipChars_no_dot u _ '.' (hX ▸ hm)) rfl
  have hc0 : ¬ ('.' = Nat.digitChar (fp % 10)) :=
    fun h => (isDigit_ne_dot hd0) h.symm
  have hc1 : ¬ ('.' = Nat.digitChar (fp / 10 % 10)) :=
    fun h => (isDigit_ne_dot hd1) h.symm
  rw [twoDecimalText, hdata, fracChars_two]
  have hrev : (pre ++ (X ++ '.' :: [Nat.digitChar (fp / 10 % 10),
      Nat.digitChar (fp % 10)])).reverse =
      Nat.digitChar (fp % 10) :: Nat.digitChar (fp / 10 % 10) :: '.' ::
        (X.reverse ++ pre.reverse) := by
    simp [List.reverse_append]
  have hcount : (pre ++ (X ++ '.' :: [Nat.digitChar (fp / 10 % 10),
      Nat.digitChar (fp % 10)])).count '.' = 1 := by
    rw [List.count_append, List.count_append]
    rw [List.count_eq_zero.mpr hpre, List.count_eq_zero.mpr hXnd]
    simp [List.count_cons, beq_iff_eq, hc0, hc1]
  rw [hrev, hcount]
  simp [hd0, hd1]

/-! ### Behaviour of the two analyzer functions -/

theorem create_hist_ok (monthly_calls calls_percentages : List ℚ) (mode name : String)
    (id : Int) (h : 12 ≤ (selectedValues mode monthly_calls calls_percentages).length) :
    ∃ r, create_historical_variability_table monthly_calls calls_percentages
        mode name id = .ok r ∧
      r.average_mix = round2 (npMean (selectedValues mode monthly_calls calls_percentages)) ∧
      r.monthly_values = selectedValues mode monthly_calls calls_percentages ∧
      r.variability = (List.range 12).map (fun i =>
        round2 (ratSub ((selectedValues mode monthly_calls calls_percentages).getD i 0)
          (round2 (npMean (selectedValues mode monthly_calls calls_percentages))))) := by
  simp only [create_historical_variability_table]
  set sel := selectedValues mode monthly_calls calls_percentages with hsel
  set avg := round2 (npMean sel) with havg
  have hget : ∀ i ∈ List.range 12, sel.get? i = some (sel.getD i 0) := fun i hi =>
    get?_eq_getD_of_lt 0 _ _ (lt_of_lt_of_le (List.mem_range.mp hi) h)
  have h1 : comprehend (fun i =>
      match sel.get? i with
      | some v => Except.ok (round2 (ratSub v avg))
      | none => Except.error (AnalyzerError.indexError i)) (List.range 12) =
      .ok ((List.range 12).map (fun i => round2 (ratSub (sel.getD i 0) avg))) := by
    apply comprehend_eq_map
    intro i hi
    rw [hget i hi]
  have h2 : comprehend (fun i =>
      match sel.get? i with
      | some v => Except.ok (valueCellText mode v)
      | none => Except.error (AnalyzerError.indexError i)) (List.range 12) =
      .ok ((List.range 12).map (fun i => valueCellText mode (sel.getD i 0))) := by
    apply comprehend_eq_map
    intro i hi
    rw [hget i hi]
  rw [h1, h2]
  exact ⟨_, rfl, rfl, rfl, rfl⟩

theorem create_hist_err (monthly_calls calls_percentages : List ℚ) (mode name : String)
    (id : Int) (h : (selectedValues mode monthly_calls calls_percentages).length < 12) :
    create_historical_variability_table monthly_calls calls_percentages mode name id =
      .error (.indexError (selectedValues mode monthly_calls calls_percentages).length) := by
  simp only [create_historical_variability_table]
  set sel := selectedValues mode monthly_calls calls_percentages with hsel
  set avg := round2 (npMean sel) with havg
  have herr : comprehend (fun i =>
      match sel.get? i with
      | some v => Except.ok (round2 (ratSub v avg))
      | none => Except.error (AnalyzerError.indexError i)) (List.range 12) =
      .error (.indexError sel.length) := by
    apply comprehend_range_error _ (fun i => round2 (ratSub (sel.getD i 0) avg))
      sel.length _ _ _ 12 h
    · intro i hi
      rw [get?_eq_getD_of_lt 0 _ _ hi]
    · rw [List.get?_eq_none.mpr (le_refl sel.length)]
  rw [herr]

theorem create_hist_error_shape (monthly_calls calls_percentages : List ℚ)
    (mode name : String) (id : Int) (e : AnalyzerError)
    (h : create_historical_variability_table monthly_calls calls_percentages
      mode name id = .error e) : ∃ i, e = .indexError i := by
  rcases Nat.lt_or_ge (selectedValues mode monthly_calls calls_percentages).length 12
    with hl | hl
  · rw [create_hist_err monthly_calls calls_percentages mode name id hl] at h
    cases h
    exact ⟨_, rfl⟩
  · obtain ⟨r, hr, -, -, -⟩ :=
      create_hist_ok monthly_calls calls_percentages mode name id hl
    rw [hr] at h
    cases h

theorem company_row_cells_ok (mode : String) (r : CompanyRow)
    (h : 12 ≤ (companyValues mode r).length) :
    company_row_cells mode r = .ok (r.company_name.getD "Unknown Company" ::
      (if mode = "Percentages"
       then String.mk (formatFixedChars false 2 (companyAverage mode r) ++ ['%'])
       else String.mk (formatFixedChars true 2 (companyAverage mode r))) ::
      ((List.range 12).map (fun i =>
        [valueCellText mode ((companyValues mode r).getD i 0),
         devCellText mode (companyDeviation mode r i)])).flatten) := by
  simp only [company_row_cells]
  set mv := companyValues mode r with hmv
  set avg := round2 (npMean mv) with havg
  have hget : ∀ i ∈ List.range 12, mv.get? i = some (mv.getD i 0) := fun i hi =>
    get?_eq_getD_of_lt 0 _ _ (lt_of_lt_of_le (List.mem_range.mp hi) h)
  have h1 : comprehend (fun i =>
      match mv.get? i with
      | some v => Except.ok (round2 (ratSub v avg))
      | none => Except.error (AnalyzerError.indexError i)) (List.range 12) =
      .ok ((List.range 12).map (fun i => round2 (ratSub (mv.getD i 0) avg))) := by
    apply comprehend_eq_map
    intro i hi
    rw [hget i hi]
  have h2 : comprehend (fun i =>
      match mv.get? i with
      | some v => Except.ok [valueCellText mode v,
          devCellText mode (((List.range 12).map
            (fun i => round2 (ratSub (mv.getD i 0) avg))).getD i 0)]
      | none => Except.error (AnalyzerError.indexError i)) (List.range 12) =
      .ok ((List.range 12).map (fun i =>
        [valueCellText mode (mv.getD i 0),
         devCellText mode (companyDeviation mode r i)])) := by
    apply comprehend_eq_map
    intro i hi
    rw [hget i hi, map_range_getD _ _ _ (List.mem_range.mp hi)]
    rfl
  split
  · rename_i e heq
    rw [h1] at heq
    exact Except.noConfusion heq
  · rename_i variability heq
    rw [h1] at heq
    injection heq with hv
    subst hv
    split
    · rename_i e heq2
      rw [h2] at heq2
      exact Except.noConfusion heq2
    · rename_i pairs heq2
      rw [h2] at heq2
      injection heq2 with hp
      subst hp
      rfl

theorem company_row_cells_err (mode : String) (r : CompanyRow)
    (h : (companyValues mode r).length < 12) :
    company_row_cells mode r = .error (.indexError (companyValues mode r).length) := by
  simp only [company_row_cells]
  set mv := companyValues mode r with hmv
  set avg := round2 (npMean mv) with havg
  have herr : comprehend (fun i =>
      match mv.get? i with
      | some v => Except.ok (round2 (ratSub v avg))
      | none => Except.error (AnalyzerError.indexError i)) (List.range 12) =
      .error (.indexError mv.length) := by
    apply comprehend_range_error _ (fun i => round2 (ratSub (mv.getD i 0) avg))
      mv.length _ _ _ 12 h
    · intro i hi
      rw [get?_eq_getD_of_lt 0 _ _ hi]
    · rw [List.get?_eq_none.mpr (le_refl mv.length)]
  rw [herr]

theorem company_row_cells_error_shape (mode : String) (r : CompanyRow) (e : AnalyzerError)
    (h : company_row_cells mode r = .error e) : ∃ i, e = .indexError i := by
  rcases Nat.lt_or_ge (companyValues mode r).length 12 with hl | hl
  · rw [company_row_cells_err mode r hl] at h
    cases h
    exact ⟨_, rfl⟩
  · rw [company_row_cells_ok mode r hl] at h
    cases h

theorem build_ok (entities : List CompanyRow) (gm mode : String) (t : Table)
    (hne : entities ≠ [])
    (hok : create_all_companies_variability_table entities gm mode = .ok t) :
    t.columns = allCompaniesColumns ∧ t.rows.length = entities.length ∧
    ∀ k r, entities.get? k = some r →
      ∃ cells, company_row_cells mode r = .ok cells ∧ t.rows.get? k = some cells := by
  have hempty : entities.isEmpty = false := by
    cases entities with
    | nil => exact absurd rfl hne
    | cons a t => rfl
  rw [create_all_companies_variability_table, hempty] at hok
  simp only [Bool.false_eq_true, if_false] at hok
  cases hcomp : comprehend (company_row_cells mode) entities with
  | error e =>
    rw [hcomp] at hok
    exact absurd hok (by simp)
  | ok rows =>
    rw [hcomp] at hok
    cases hok
    refine ⟨rfl, comprehend_length _ _ _ hcomp, ?_⟩
    intro k r hk
    exact comprehend_get _ _ _ _ _ hcomp hk

theorem build_error_shape (entities : List CompanyRow) (gm mode : String)
    (e : AnalyzerError)
    (h : create_all_companies_variability_table entities gm mode = .error e) :
    ∃ i, e = .indexError i := by
  rw [create_all_companies_variability_table] at h
  split at h
  · cases h
  · cases hcomp : comprehend (company_row_cells mode) entities with
    | error e' =>
      rw [hcomp] at h
      cases h
      obtain ⟨a, -, ha⟩ := comprehend_error_member _ _ _ hcomp
      exact company_row_cells_error_shape mode a _ ha
    | ok rows =>
      rw [hcomp] at h
      cases h

/-! ### Summation bounds for the rounded deviations -/

theorem list_map_range_sum (f : ℕ → ℚ) :
    ∀ n, ((List.range n).map f).sum = ∑ i in Finset.range n, f i := by
  intro n
  induction n with
  | zero => simp
  | succ n ih =>
    rw [List.range_succ, List.map_append, List.sum_append, Finset.sum_range_succ, ih]
    simp

theorem map_range_getD_self (l : List ℚ) :
    (List.range l.length).map (fun i => l.getD i 0) = l := by
  induction l with
  | nil => rfl
  | cons x t ih =>
    rw [List.length_cons, List.range_succ_eq_map, List.map_cons, List.map_map]
    have hcomp : ((fun i => (x :: t).getD i 0) ∘ Nat.succ) = fun i => t.getD i 0 := by
      funext i
      rfl
    rw [hcomp, ih]
    rfl

theorem abs_sum_range_le (n : ℕ) (c : ℚ) (f : ℕ → ℚ) (h : ∀ i, i < n → |f i| ≤ c) :
    |∑ i in Finset.range n, f i| ≤ n * c := by
  calc |∑ i in Finset.range n, f i| ≤ ∑ i in Finset.range n, |f i| :=
        Finset.abs_sum_le_sum_abs _ _
    _ ≤ ∑ _i in Finset.range n, c :=
        Finset.sum_le_sum (fun i hi => h i (Finset.mem_range.mp hi))
    _ = n * c := by rw [Finset.sum_const, Finset.card_range, nsmul_eq_mul]

theorem variability_sum_bound (s : List ℚ) (h : s.length = 12) :
    |((List.range 12).map (fun i =>
        round2 (ratSub (s.getD i 0) (round2 (npMean s))))).sum| ≤ 12 / 100 := by
  set a := round2 (npMean s) with ha
  have hfun : (fun i => round2 (ratSub (s.getD i 0) a)) =
      fun i => round2 (s.getD i 0 - a) := by
    funext i
    rw [ratSub_eq]
  rw [hfun, list_map_range_sum]
  have hmean : npMean s = s.sum / 12 := by
    rw [npMean_eq, h]
    norm_num
  have hsum12 : ∑ i in Finset.range 12, s.getD i 0 = s.sum := by
    have hself := map_range_getD_self s
    rw [h] at hself
    calc ∑ i in Finset.range 12, s.getD i 0
        = ((List.range 12).map (fun i => s.getD i 0)).sum :=
          (list_map_range_sum _ 12).symm
      _ = s.sum := by rw [hself]
  have hdecomp : ∑ i in Finset.range 12, round2 (s.getD i 0 - a)
      = (∑ i in Finset.range 12, (round2 (s.getD i 0 - a) - (s.getD i 0 - a)))
        + (s.sum - 12 * a) := by
    rw [Finset.sum_sub_distrib, Finset.sum_sub_distrib, hsum12, Finset.sum_const,
      Finset.card_range, nsmul_eq_mul]
    ring
  have herr : |∑ i in Finset.range 12, (round2 (s.getD i 0 - a) - (s.getD i 0 - a))|
      ≤ 12 * (1 / 200) :=
    abs_sum_range_le 12 _ _ (fun i _ => round2_abs _)
  have hmeanbound : |s.sum - 12 * a| ≤ 12 * (1 / 200) := by
    have h2 := abs_le.mp (round2_abs (npMean s))
    rw [hmean] at h2
    obtain ⟨hl, hr⟩ := h2
    have ha2 : a = round2 (s.sum / 12) := by rw [ha, hmean]
    rw [abs_le]
    constructor <;> linarith [hl, hr, ha2]
  rw [hdecomp]
  have habs := abs_add
    (∑ i in Finset.range 12, (round2 (s.getD i 0 - a) - (s.getD i 0 - a)))
    (s.sum - 12 * a)
  linarith [herr, hmeanbound, habs]

/-! ### Claim theorems -/

set_option maxRecDepth 8000

/-- C3 counterexample: build on the empty entity sequence returns a table
whose header has only the two columns Company and Average Mix, not the
fixed 26-column set the claim requires. -/
theorem claim_C3_counterexample :
    create_all_companies_variability_table [] "by_company" "Absolute" =
      .ok { columns := ["Company", "Average Mix"], rows := [] } ∧
    (["Company", "Average Mix"] : List String) ≠ allCompaniesColumns ∧
    (["Company", "Average Mix"] : List String).length = 2 := by
  refine ⟨by decide, by decide, by decide⟩

/-- C3 amended: build applied to an empty entity sequence does not fail and
returns a table with zero data rows, but its header contains only the two
columns Company and Average Mix, not the month and variability columns. -/
theorem claim_C3_amended : ∀ gm mode : String,
    create_all_companies_variability_table [] gm mode =
      .ok { columns := ["Company", "Average Mix"], rows := [] } := by
  intro gm mode
  rfl

/-- C5 counterexample: a series of length 11 makes compute fail with a bare
index error at month index 11, not with InvalidSeriesLength, and a series
of length 13 does not make compute fail at all. -/
theorem claim_C5_counterexample :
    create_historical_variability_table (List.replicate 11 (1 : ℚ))
      (List.replicate 11 1) "Absolute" "Co" 1 = .error (.indexError 11) ∧
    (AnalyzerError.indexError 11 ≠ .invalidSeriesLength) ∧
    (create_historical_variability_table (List.replicate 13 (1 : ℚ))
      (List.replicate 13 1) "Absolute" "Co" 1).isOk = true := by
  refine ⟨by decide, by decide, by decide⟩

/-- C5 amended: when the selected monthly series is shorter than 12,
compute fails with a bare index error at the first missing month (index =
series length), not with a dedicated InvalidSeriesLength failure, and
returns no partial result; when the selected series has 12 or more entries
no such failure occurs (entries beyond the first 12 are silently
accepted). -/
theorem claim_C5_amended : ∀ (monthly_calls calls_percentages : List ℚ)
    (mode name : String) (id : Int),
    ((selectedValues mode monthly_calls calls_percentages).length < 12 →
      create_historical_variability_table monthly_calls calls_percentages mode name id =
        .error (.indexError (selectedValues mode monthly_calls calls_percentages).length)) ∧
    (12 ≤ (selectedValues mode monthly_calls calls_percentages).length →
      (create_historical_variability_table monthly_calls calls_percentages
        mode name id).isOk = true) := by
  intro mc cp mode name id
  constructor
  · exact create_hist_err mc cp mode name id
  · intro h
    obtain ⟨r, hr, -, -, -⟩ := create_hist_ok mc cp mode name id h
    rw [hr]
    rfl

/-- Witness for C5 amended at a length-11 and a length-12 series. -/
theorem claim_C5_witness :
    create_historical_variability_table (List.replicate 11 (1 : ℚ))
      (List.replicate 11 1) "Absolute" "Co" 1 = .error (.indexError 11) ∧
    (create_historical_variability_table demo_monthly_calls demo_calls_percentages
      "Absolute" "Co" 1).isOk = true := by
  constructor
  · exact (claim_C5_amended (List.replicate 11 1) (List.replicate 11 1)
      "Absolute" "Co" 1).1 (by decide)
  · exact (claim_C5_amended demo_monthly_calls demo_calls_percentages
      "Absolute" "Co" 1).2 (by decide)

/-- C6 counterexample: a mode value outside the two recognized values is
not rejected: both compute and build succeed on it. -/
theorem claim_C6_counterexample :
    (create_historical_variability_table demo_monthly_calls demo_calls_percentages
      "Bogus Mode" "Co" 1).isOk = true ∧
    (create_all_companies_variability_table [zeroRow] "by_company"
      "Bogus Mode").isOk = true := by
  refine ⟨by decide, by decide⟩

/-- C6 amended: no mode validation exists: whatever the mode string,
compute and build never fail with InvalidMode; the only failure either can
produce is an index error from a short series. -/
theorem claim_C6_amended :
    (∀ (monthly_calls calls_percentages : List ℚ) (mode name : String) (id : Int)
      (e : AnalyzerError),
      create_historical_variability_table monthly_calls calls_percentages mode name id =
        .error e → ∃ i, e = .indexError i) ∧
    (∀ (entities : List CompanyRow) (gm mode : String) (e : AnalyzerError),
      create_all_companies_variability_table entities gm mode = .error e →
      ∃ i, e = .indexError i) :=
  ⟨fun mc cp mode name id e h => create_hist_error_shape mc cp mode name id e h,
   fun entities gm mode e h => build_error_shape entities gm mode e h⟩

/-- Witness for C6 amended at a concrete failing input. -/
theorem claim_C6_witness :
    ∃ i, (AnalyzerError.indexError 11 : AnalyzerError) = .indexError i :=
  claim_C6_amended.1 (List.replicate 11 (1 : ℚ)) (List.replicate 11 1)
    "Whatever" "Co" 1 (.indexError 11) (by decide)

/-- C7 counterexample: for the empty entity sequence the returned table has
2 columns, not the 26 the claim requires for every entity sequence. -/
theorem claim_C7_counterexample :
    Except.map (fun t => t.columns.length)
      (create_all_companies_variability_table [] "by_company" "Absolute") = .ok 2 ∧
    (2 : Nat) ≠ 26 := by
  refine ⟨by decide, by decide⟩

/-- C7 amended: for every nonempty entity sequence on which build succeeds,
the table has exactly the fixed 26 columns Company, Average Mix, then the
January..December month and month_var pairs in order, and one data row per
entity in exactly the input order with no re-sorting; the empty sequence
instead yields the two-column header of the C3 record. -/
theorem claim_C7_amended : ∀ (entities : List CompanyRow) (gm mode : String) (t : Table),
    entities ≠ [] →
    create_all_companies_variability_table entities gm mode = .ok t →
    t.columns = allCompaniesColumns ∧ allCompaniesColumns.length = 26 ∧
    t.rows.length = entities.length ∧
    (∀ k r, entities.get? k = some r →
      ∃ cells, company_row_cells mode r = .ok cells ∧ t.rows.get? k = some cells) := by
  intro entities gm mode t hne hok
  obtain ⟨h1, h2, h3⟩ := build_ok entities gm mode t hne hok
  exact ⟨h1, by decide, h2, h3⟩

/-- Witness for C7 amended at a concrete one-entity input. -/
theorem claim_C7_witness :
    demoTable.columns = allCompaniesColumns ∧ allCompaniesColumns.length = 26 ∧
    demoTable.rows.length = 1 := by
  obtain ⟨h1, h2, h3, h4⟩ := claim_C7_amended [demoRow] "by_company" "Absolute" demoTable
    (by decide) (by decide)
  exact ⟨h1, h2, h3.trans (by decide)⟩

/-- C10: every mode string other than "Percentages" (including
"Percentage", "percentages", or arbitrary text) selects the absolute
series, units and formatting: compute and build return exactly the same
result as for mode "Absolute", and the mode value is never rejected. -/
theorem claim_C10 : ∀ mode : String, mode ≠ "Percentages" →
    (∀ (monthly_calls calls_percentages : List ℚ) (name : String) (id : Int),
      create_historical_variability_table monthly_calls calls_percentages mode name id =
        create_historical_variability_table monthly_calls calls_percentages
          "Absolute" name id) ∧
    (∀ (entities : List CompanyRow) (gm : String),
      create_all_companies_variability_table entities gm mode =
        create_all_companies_variability_table entities gm "Absolute") := by
  intro mode hmode
  have hA : ¬ (("Absolute" : String) = "Percentages") := by decide
  constructor
  · intro mc cp name id
    simp only [create_historical_variability_table, selectedValues, valueCellText,
      devCellText, hmode, hA, if_false]
  · intro entities gm
    have hrow : company_row_cells mode = company_row_cells "Absolute" := by
      funext r
      simp only [company_row_cells, companyValues, selectedValues, valueCellText,
        devCellText, hmode, hA, if_false]
    rw [create_all_companies_variability_table,
      create_all_companies_variability_table, hrow]

/-- Witness for C10 at the mode string "Percentage" (singular). -/
theorem claim_C10_witness :
    create_historical_variability_table demo_monthly_calls demo_calls_percentages
      "Percentage" "Company" 1 =
    create_historical_variability_table demo_monthly_calls demo_calls_percentages
      "Absolute" "Company" 1 :=
  (claim_C10 "Percentage" (by decide)).1 demo_monthly_calls demo_calls_percentages
    "Company" 1

/-- C1: for every pair of 12-element monthly series and any analysis mode,
compute returns an average equal to the arithmetic mean of the 12 selected
values rounded to 2 decimals, and each monthly deviation equal to the
selected value minus the rounded average, independently rounded to 2
decimals; in particular on the example series in Absolute mode the average
is 1400.00, the January deviation is -200.00 and the July deviation
is +300.00. -/
theorem claim_C1 :
    (∀ (monthly_calls calls_percentages : List ℚ) (mode name : String) (id : Int),
      monthly_calls.length = 12 → calls_percentages.length = 12 →
      ∃ r, create_historical_variability_table monthly_calls calls_percentages
          mode name id = .ok r ∧
        r.average_mix =
          round2 ((selectedValues mode monthly_calls calls_percentages).sum / 12) ∧
        ∀ i, i < 12 → r.variability.get? i =
          some (round2 ((selectedValues mode monthly_calls calls_percentages).getD i 0
            - r.average_mix))) ∧
    (∃ r, create_historical_variability_table demo_monthly_calls
        demo_calls_percentages "Absolute" "Company" 1 = .ok r ∧
      r.average_mix = 1400 ∧ r.variability.get? 0 = some (-200) ∧
      r.variability.get? 6 = some 300) := by
  constructor
  · intro mc cp mode name id h1 h2
    have hlen : (selectedValues mode mc cp).length = 12 := by
      rw [selectedValues]
      split <;> assumption
    obtain ⟨r, hr, havg, hmv, hvar⟩ := create_hist_ok mc cp mode name id
      (le_of_eq hlen.symm)
    refine ⟨r, hr, ?_, ?_⟩
    · rw [havg, npMean_eq, hlen]
      norm_num
    · intro i hi
      rw [hvar, List.get?_map, List.get?_range hi, havg]
      exact congrArg some (by simp only [ratSub_eq])
  · refine ⟨singleDemo, by decide, by decide, by decide, by decide⟩

/-- Witness for the universally quantified part of C1 at the example
series in Percentages mode. -/
theorem claim_C1_witness :
    ∃ r, create_historical_variability_table demo_monthly_calls demo_calls_percentages
        "Percentages" "Company" 1 = .ok r ∧
      r.average_mix = round2 ((selectedValues "Percentages" demo_monthly_calls
        demo_calls_percentages).sum / 12) ∧
      ∀ i, i < 12 → r.variability.get? i =
        some (round2 ((selectedValues "Percentages" demo_monthly_calls
          demo_calls_percentages).getD i 0 - r.average_mix)) :=
  claim_C1.1 demo_monthly_calls demo_calls_percentages "Percentages" "Company" 1
    (by decide) (by decide)

/-- C2 counterexample: on an all-zero series every deviation is 0, its cell
text is +0.00, and build tags the January deviation cell with the
DeviationPositive style, not with the DeviationZero style the claim
requires. -/
theorem claim_C2_counterexample :
    Except.map (fun t => ((all_companies_style_map t).getD 0 []).get? 3)
      (create_all_companies_variability_table [zeroRow] "by_company" "Absolute") =
      .ok (some deviationPositiveStyle) ∧
    deviationPositiveStyle ≠ deviationZeroStyle := by
  refine ⟨by decide, by decide⟩

/-- C2 amended: in the style map produced by build, every month_var cell is
tagged by the leading character of its already formatted text, so every
deviation that is ≥ 0 — zero included, since zero is rendered +0.00 — is
tagged DeviationPositive, and every negative deviation DeviationNegative;
the DeviationZero tag is never produced for these cells. -/
theorem claim_C2_amended : ∀ (entities : List CompanyRow) (gm mode : String)
    (t : Table) (k i : Nat) (r : CompanyRow),
    create_all_companies_variability_table entities gm mode = .ok t →
    entities.get? k = some r → i < 12 →
    ∃ styles, (all_companies_style_map t).get? k = some styles ∧
      styles.get? (2 * i + 3) =
        some (if 0 ≤ companyDeviation mode r i then deviationPositiveStyle
              else deviationNegativeStyle) := by
  intro entities gm mode t k i r hok hk hi
  have hne : entities ≠ [] := by
    intro he
    subst he
    simp at hk
  obtain ⟨hcols, hlen, hrows⟩ := build_ok entities gm mode t hne hok
  obtain ⟨cells, hcells, hget⟩ := hrows k r hk
  have hvlen : 12 ≤ (companyValues mode r).length := by
    by_contra hcon
    have herr := company_row_cells_err mode r (lt_of_not_le hcon)
    rw [herr] at hcells
    exact Except.noConfusion hcells
  have hchar := company_row_cells_ok mode r hvlen
  rw [hchar] at hcells
  injection hcells with hc
  subst hc
  refine ⟨highlight_variability_table t.columns
    (r.company_name.getD "Unknown Company" ::
      (if mode = "Percentages"
       then String.mk (formatFixedChars false 2 (companyAverage mode r) ++ ['%'])
       else String.mk (formatFixedChars true 2 (companyAverage mode r))) ::
      ((List.range 12).map (fun j =>
        [valueCellText mode ((companyValues mode r).getD j 0),
         devCellText mode (companyDeviation mode r j)])).flatten), ?_, ?_⟩
  · rw [all_companies_style_map, List.get?_map, hget]
    rfl
  · rw [hcols]
    have hmi : i < months.length := by
      rw [show months.length = 12 from rfl]
      exact hi
    have hm : months.get? i = some (months.get ⟨i, hmi⟩) := List.get?_eq_get hmi
    have hcol : ((months.map (fun mo => [mo, mo ++ "_var"])).flatten).get? (2 * i + 1) =
        some (months.get ⟨i, hmi⟩ ++ "_var") :=
      (flatten_pairs_get (fun mo => mo) (fun mo => mo ++ "_var") months i _ hm).2
    have hcell : (((List.range 12).map (fun j =>
        [valueCellText mode ((companyValues mode r).getD j 0),
         devCellText mode (companyDeviation mode r j)])).flatten).get? (2 * i + 1) =
        some (devCellText mode (companyDeviation mode r i)) :=
      (flatten_pairs_get (fun j => valueCellText mode ((companyValues mode r).getD j 0))
        (fun j => devCellText mode (companyDeviation mode r j))
        (List.range 12) i i (List.get?_range hi)).2
    have hzip := get?_zipWith styleCell _ _ (2 * i + 1) _ _ hcol hcell
    have hsc : styleCell (months.get ⟨i, hmi⟩ ++ "_var")
        (devCellText mode (companyDeviation mode r i)) =
        (if 0 ≤ companyDeviation mode r i then deviationPositiveStyle
         else deviationNegativeStyle) := by
      rw [styleCell, if_pos (endswith_var _), companyDeviation]
      by_cases hw : 0 ≤ round2 (ratSub ((companyValues mode r).getD i 0)
        (companyAverage mode r))
      · rw [if_pos ((startswith_devCellText_plus mode _).mpr hw), if_pos hw]
      · rw [if_neg (fun hh => hw ((startswith_devCellText_plus mode _).mp hh)),
          if_pos ((startswith_devCellText_minus mode _).mpr (lt_of_not_le hw)),
          if_neg hw]
    rw [hsc] at hzip
    exact hzip

/-- Witness for C2 amended at the all-zero company. -/
theorem claim_C2_witness :
    ∃ styles, (all_companies_style_map zeroTable).get? 0 = some styles ∧
      styles.get? (2 * 0 + 3) =
        some (if 0 ≤ companyDeviation "Absolute" zeroRow 0 then deviationPositiveStyle
              else deviationNegativeStyle) :=
  claim_C2_amended [zeroRow] "by_company" "Absolute" zeroTable 0 0 zeroRow
    (by decide) (by decide) (by decide)

/-- C4 counterexample: an entity record whose monthly series fields are
both missing does not make build fail with InvalidEntityData: the build
succeeds and silently renders the entity as an all-zero row. -/
theorem claim_C4_counterexample :
    create_all_companies_variability_table [noDataRow] "by_company" "Absolute" =
      .ok { columns := allCompaniesColumns,
            rows := [("NoData Co" : String) :: "0.00" ::
              (List.replicate 12 ["0", "+0.00"]).flatten] } := by
  decide

/-- C4 amended: build never fails with InvalidEntityData: a record whose
series fields are missing is processed exactly as if both series were
np.zeros(12) and the build succeeds on it; the only failure build can
produce at all is a bare index error (from a too-short series) that does
not identify the entity. -/
theorem claim_C4_amended : ∀ (gm mode : String) (name : Option String)
    (id : Option Int),
    create_all_companies_variability_table [⟨name, id, none, none⟩] gm mode =
      create_all_companies_variability_table
        [⟨name, id, some (List.replicate 12 0), some (List.replicate 12 0)⟩] gm mode ∧
    (create_all_companies_variability_table [⟨name, id, none, none⟩] gm mode).isOk =
      true ∧
    (∀ (entities : List CompanyRow) (e : AnalyzerError),
      create_all_companies_variability_table entities gm mode = .error e →
      ∃ i, e = .indexError i) := by
  intro gm mode name id
  refine ⟨rfl, ?_, ?_⟩
  · have hvlen : 12 ≤ (companyValues mode ⟨name, id, none, none⟩).length := by
      rw [companyValues, selectedValues]
      split <;> simp
    have hcells := company_row_cells_ok mode ⟨name, id, none, none⟩ hvlen
    rw [create_all_companies_variability_table]
    simp only [List.isEmpty_cons, Bool.false_eq_true, if_false, comprehend, hcells]
    rfl
  · intro entities e h
    exact build_error_shape entities gm mode e h

/-- Witness for C4 amended: the defaulting equation and success at a
concrete record, and the index-error shape at a concrete short series. -/
theorem claim_C4_witness :
    create_all_companies_variability_table
        [⟨some "NoData Co", some 7, none, none⟩] "by_company" "Absolute" =
      create_all_companies_variability_table
        [⟨some "NoData Co", some 7, some (List.replicate 12 0),
          some (List.replicate 12 0)⟩] "by_company" "Absolute" ∧
    (∃ i, (AnalyzerError.indexError 5 : AnalyzerError) = .indexError i) := by
  refine ⟨(claim_C4_amended "by_company" "Absolute" (some "NoData Co") (some 7)).1, ?_⟩
  exact (claim_C4_amended "by_company" "Absolute" (some "NoData Co") (some 7)).2.2
    [⟨some "Short Co", none, some (List.replicate 5 0), none⟩] (.indexError 5)
    (by decide)

/-- C8: every deviation cell produced by build is the two-decimal rendering
of the rounded deviation with an explicit leading plus sign exactly when
the deviation is ≥ 0 and a minus sign exactly when it is negative; there
is no separate zero case, a zero deviation being rendered +0.00. -/
theorem claim_C8 : ∀ (entities : List CompanyRow) (gm mode : String) (t : Table)
    (k i : Nat) (r : CompanyRow),
    create_all_companies_variability_table entities gm mode = .ok t →
    entities.get? k = some r → i < 12 →
    ∃ cells, t.rows.get? k = some cells ∧
      cells.get? (2 * i + 3) = some (devCellText mode (companyDeviation mode r i)) ∧
      twoDecimalText (devCellText mode (companyDeviation mode r i)) = true ∧
      (startswith (devCellText mode (companyDeviation mode r i)) "+" = true ↔
        0 ≤ companyDeviation mode r i) ∧
      (startswith (devCellText mode (companyDeviation mode r i)) "-" = true ↔
        companyDeviation mode r i < 0) ∧
      devCellText mode 0 = "+0.00" := by
  intro entities gm mode t k i r hok hk hi
  have hne : entities ≠ [] := by
    intro he
    subst he
    simp at hk
  obtain ⟨-, -, hrows⟩ := build_ok entities gm mode t hne hok
  obtain ⟨cells, hcells, hget⟩ := hrows k r hk
  have hvlen : 12 ≤ (companyValues mode r).length := by
    by_contra hcon
    have herr := company_row_cells_err mode r (lt_of_not_le hcon)
    rw [herr] at hcells
    exact Except.noConfusion hcells
  have hchar := company_row_cells_ok mode r hvlen
  rw [hchar] at hcells
  injection hcells with hc
  subst hc
  refine ⟨_, hget, ?_,
    twoDecimalText_devCellText mode _,
    startswith_devCellText_plus mode _,
    startswith_devCellText_minus mode _,
    devCellText_zero mode⟩
  exact (flatten_pairs_get (fun j => valueCellText mode ((companyValues mode r).getD j 0))
    (fun j => devCellText mode (companyDeviation mode r j))
    (List.range 12) i i (List.get?_range hi)).2

/-- Witness for C8 at the example company. -/
theorem claim_C8_witness :
    ∃ cells, demoTable.rows.get? 0 = some cells ∧
      cells.get? (2 * 0 + 3) =
        some (devCellText "Absolute" (companyDeviation "Absolute" demoRow 0)) ∧
      twoDecimalText (devCellText "Absolute" (companyDeviation "Absolute" demoRow 0)) =
        true ∧
      (startswith (devCellText "Absolute" (companyDeviation "Absolute" demoRow 0)) "+" =
        true ↔ 0 ≤ companyDeviation "Absolute" demoRow 0) ∧
      (startswith (devCellText "Absolute" (companyDeviation "Absolute" demoRow 0)) "-" =
        true ↔ companyDeviation "Absolute" demoRow 0 < 0) ∧
      devCellText "Absolute" 0 = "+0.00" :=
  claim_C8 [demoRow] "by_company" "Absolute" demoTable 0 0 demoRow
    (by decide) (by decide) (by decide)

/-- C9 counterexample: on the 12-month series with one month at 0.094 and
eleven at -0.004 in Absolute mode, the rounded deviations sum to 0.09,
outside the claimed ±0.06 tolerance. -/
theorem claim_C9_counterexample :
    Except.map (fun r => r.variability.sum)
      (create_historical_variability_table c9_series (List.replicate 12 0)
        "Absolute" "Co" 1) = .ok (9 / 100 : ℚ) ∧
    ¬ (|(9 / 100 : ℚ)| ≤ 6 / 100) := by
  constructor
  · have h : Except.map (fun r => listSum r.variability)
        (create_historical_variability_table c9_series (List.replicate 12 0)
          "Absolute" "Co" 1) = .ok (mkRat 9 100) := by decide
    have h2 : (mkRat 9 100 : ℚ) = 9 / 100 := by
      rw [Rat.mkRat_eq_div]
      norm_num
    simp only [listSum_eq] at h
    rw [h, h2]
  · intro hcon
    rw [abs_of_nonneg (by norm_num : (0 : ℚ) ≤ 9 / 100)] at hcon
    norm_num at hcon

/-- C9 amended: for every pair of 12-element series and any mode, the sum
of the 12 rounded deviations computed by compute lies within ±0.12 of 0:
rounding the average and rounding each of the 12 deviations can each move
the sum by up to half a cent per term. -/
theorem claim_C9_amended : ∀ (monthly_calls calls_percentages : List ℚ)
    (mode name : String) (id : Int) (r : SingleTable),
    monthly_calls.length = 12 → calls_percentages.length = 12 →
    create_historical_variability_table monthly_calls calls_percentages mode name id =
      .ok r →
    |r.variability.sum| ≤ 12 / 100 := by
  intro mc cp mode name id r h1 h2 hok
  have hlen : (selectedValues mode mc cp).length = 12 := by
    rw [selectedValues]
    split <;> assumption
  obtain ⟨r', hr', -, -, hvar⟩ := create_hist_ok mc cp mode name id (le_of_eq hlen.symm)
  rw [hok] at hr'
  injection hr' with hrr
  subst hrr
  rw [hvar]
  exact variability_sum_bound _ hlen

/-- Witness for C9 amended at the example series. -/
theorem claim_C9_witness : |singleDemo.variability.sum| ≤ 12 / 100 :=
  claim_C9_amended demo_monthly_calls demo_calls_percentages "Absolute" "Company" 1
    singleDemo (by decide) (by decide) (by decide)

